import Mathlib

/-!
# util.cc : `stripext`, `args` and `System`

A shallow embedding of three routines of `util.cc`:

* `stripext` over `std::string` with 64-bit `size_t` arithmetic;
* `args`, the two-pass tokenizer that builds a NULL-terminated `argv` array;
* `System`, the fork / exec / waitpid wrapper, as a function from the results
  of the system calls it makes to the trace of its actions and its outcome.

Strings are `List Char`, one `Char` per C `char`.  A `const char*` argument is
an `Option (List Char)`: `none` is the null pointer and `some s` points at the
characters `s`, which the code reads up to the first NUL or the end of `s`.
-/

namespace Util

/-! ## Characters -/

/-- The terminator of a C string. -/
def NUL : Char := Char.ofNat 0

/-- The single quote character. -/
def QUOTE : Char := Char.ofNat 39

/-! ## `args` -/

/-- One `char*` cell of the array allocated by `new char*[n+1]`. -/
inductive Slot
  | uninit
  | null
  | str (s : List Char)
deriving DecidableEq, Repr

/-- Assignment `argv[i]=v`; `none` when `i` is outside the allocated array. -/
def store (argv : List Slot) (i : Nat) (v : Slot) : Option (List Slot) :=
  if i < argv.length then some (argv.set i v) else none

/-- Local variables of one pass of `args`.  `n` is a `size_t` bounded by the
length of the command, hence kept as a natural number. -/
structure Scan where
  argv : List Slot
  buf : List Char
  empty : Bool
  quote : Bool
  n : Nat
deriving DecidableEq, Repr

/-- Body of `while((c=*(p++)))` for a character `c` that is not NUL. -/
def body (pass : Bool) (c : Char) (st : Scan) : Option Scan :=
  if !st.quote && c == ' ' then
    if !st.empty then
      if pass then
        (store st.argv st.n (Slot.str st.buf)).map fun a =>
          { st with argv := a, buf := [], empty := true, n := st.n + 1 }
      else some { st with empty := true, n := st.n + 1 }
    else some st
  else
    if c == QUOTE then some { st with empty := false, quote := !st.quote }
    else if pass then some { st with empty := false, buf := st.buf ++ [c] }
    else some { st with empty := false }

/-- The loop `while((c=*(p++))) ...`: it stops at the terminating NUL. -/
def whileLoop (pass : Bool) : List Char → Scan → Option Scan
  | [], st => some st
  | c :: p, st => if c = NUL then some st else (body pass c st).bind (whileLoop pass p)

/-- One iteration of `for(int pass=0; pass < 2; ++pass)`; `n` is the value left
by the previous iteration.  In pass 0 `argv` is the null pointer and is never
written, which the empty array stands for. -/
def runPass (pass : Bool) (command : List Char) (n : Nat) : Option Scan :=
  let argv := if pass then List.replicate (n + 1) Slot.uninit else []
  (whileLoop pass command
      { argv := argv, buf := [], empty := true, quote := false, n := 0 }).bind fun st =>
    if !st.empty then
      if pass then
        (store st.argv st.n (Slot.str st.buf)).map fun a => { st with argv := a, n := st.n + 1 }
      else some { st with n := st.n + 1 }
    else some st

/-- What `args` hands back: the returned pointer (`none` is NULL) and, when
`settings::verbose > 1`, the cells streamed to `cerr` by the diagnostic block
(`argv[0]`, then `argv[1]` .. `argv[n-1]`), as they stand when read, before
`argv[n]=NULL`. -/
structure ArgsOut where
  argv : Option (List Slot)
  echo : Option (List Slot)
deriving DecidableEq, Repr

/-- Whether a cell holds a string.  Only such a cell can be streamed by
`cerr << argv[m]`: a cell of `new char*[n+1]` that was never assigned holds an
indeterminate pointer, and streaming it is undefined. -/
def Slot.isStr : Slot → Bool
  | Slot.str _ => true
  | _ => false

/-- The diagnostic block of `args`: the cells it reads when `verbose > 1`. -/
def echoCells (verbose : Int) (argv : List Slot) (n : Nat) : Option (List Slot) :=
  if verbose > 1 then
    some (argv.getD 0 Slot.uninit :: (List.range' 1 (n - 1)).map fun m => argv.getD m Slot.uninit)
  else none

/-- Whether the diagnostic block is defined: it is off, or every cell it
streams holds a string. -/
def echoDefined (echo : Option (List Slot)) : Bool :=
  match echo with
  | none => true
  | some cells => cells.all Slot.isStr

/-- Function `args(command)`.  `none` is a failure: a store outside the
allocated array, or the diagnostic block streaming a cell that holds no string
(`argv[0]` when `n` is 0), after which nothing is guaranteed. -/
def args (verbose : Int) (command : Option (List Char)) : Option ArgsOut :=
  match command with
  | none => some { argv := none, echo := none }
  | some cmd =>
    (runPass false cmd 0).bind fun s0 =>
    (runPass true cmd s0.n).bind fun s1 =>
    if echoDefined (echoCells verbose s1.argv s1.n) then
      (store s1.argv s1.n Slot.null).map fun a =>
        { argv := some a, echo := echoCells verbose s1.argv s1.n }
    else none

/-- The call `args(command)` in a run that comes back to the caller: the same
statements, where a diagnostic read of a cell without a string, if any, did no
harm; the cell read is kept as it stands in `echo`.  `none` is a store outside
the allocated array. -/
def argsReturned (verbose : Int) (command : Option (List Char)) : Option ArgsOut :=
  match command with
  | none => some { argv := none, echo := none }
  | some cmd =>
    (runPass false cmd 0).bind fun s0 =>
    (runPass true cmd s0.n).bind fun s1 =>
    (store s1.argv s1.n Slot.null).map fun a =>
      { argv := some a, echo := echoCells verbose s1.argv s1.n }

/-- The array made of the given tokens followed by the NULL sentinel. -/
def argvOf (tokens : List (List Char)) : List Slot :=
  tokens.map Slot.str ++ [Slot.null]

/-- The fields of the command delimited by spaces, empty fields dropped: the
maximal runs of non-space characters, in input order. -/
def spaceRuns (s : List Char) : List (List Char) :=
  (s.splitOn ' ').filter fun t => !t.isEmpty

/-! ## `stripext` -/

/-- Value `string::npos`, the largest `size_t`. -/
def npos : Nat := 2 ^ 64 - 1

/-- The downward search of `std::string::rfind`: the highest position not
above `pos` at which `t` occurs in `s`, and `npos` when there is none. -/
def rfindFrom (s t : List Char) : Nat → Nat
  | 0 => if (s.take t.length) = t then 0 else npos
  | pos + 1 =>
    if ((s.drop (pos + 1)).take t.length) = t then pos + 1 else rfindFrom s t pos

/-- Call `s.rfind(t)` of `std::string` (search from the end, `pos = npos`). -/
def rfind (s t : List Char) : Nat :=
  if t.length ≤ s.length then rfindFrom s t (min (s.length - t.length) npos) else npos

/-- Call `s.substr(0,p)` of `std::string`: at most `p` leading characters. -/
def substr0 (s : List Char) (p : Nat) : List Char :=
  s.take (min p s.length)

/-- Function `stripext(name, ext)`; the difference of the two lengths is taken
in `size_t`, modulo `2 ^ 64`. -/
def stripext (name ext : List Char) : List Char :=
  let suffix := '.' :: ext
  let p := rfind name suffix
  if p = (name.length + 2 ^ 64 - suffix.length) % 2 ^ 64 then substr0 name p else name

/-! ## `System` -/

/-- Dispositions of a signal. -/
inductive Handler
  | SIG_DFL
  | SIG_IGN
  | custom (id : Nat)
deriving DecidableEq, Repr

/-- Signal number of the interrupt signal. -/
def SIGINT : Nat := 2

/-- Third argument of `waitpid`: `0` (block) or `WNOHANG`. -/
inductive WaitOpt
  | block
  | WNOHANG
deriving DecidableEq, Repr

/-- Values of `errno` after a failed `waitpid`. -/
inductive Errno
  | ECHILD
  | EINTR
  | other (code : Nat)
deriving DecidableEq, Repr

/-- A status word stored by `waitpid`: `WIFEXITED` with its `WEXITSTATUS`, or
any other termination. -/
inductive WStatus
  | exited (code : Nat)
  | abnormal
deriving DecidableEq, Repr

/-- Result of one `waitpid` call: `-1` with an `errno`, `0` (only under
`WNOHANG`: no state change, `status` untouched), or the pid with a status. -/
inductive WaitRet
  | failed (errno : Errno)
  | running
  | changed (status : WStatus)
deriving DecidableEq, Repr

/-- Observable actions of one process running `System`. -/
inductive Action
  | flush
  | echo (cells : List Slot)
  | fork (pid : Int)
  | reportError (msg : List Char)
  | signal (signum : Nat) (h : Handler)
  | creat (path : List Char)
  | close (fd : Nat)
  | dup2null (fd : Nat)
  | execvp (file : Slot) (argv : List Slot)
  | cannotExecute (command : Slot)
  | execHint (hint : List Char) (application : Option (List Char))
  | exit (code : Int)
  | storePid (pid : Int)
  | waitpid (pid : Int) (options : WaitOpt)
  | deleteArgv (argv : List Slot)
deriving DecidableEq, Repr

/-- How the process leaves `System`. -/
inductive Outcome
  | returned (value : Int)
  | aborted
  | exited (code : Int)
  | replaced
  | fault
  | waiting
deriving DecidableEq, Repr

/-- Everything `System` obtains from outside: `settings::verbose`,
`interact::interactive`, whether `camp::reportError` returns to its caller
(it is declared outside this file), the value returned by `fork`, whether
`execvp` on a given file returns (it returns only on failure), and the results
of the successive `waitpid` calls. -/
structure Env where
  verbose : Int
  interactive : Bool
  reportReturns : Bool
  forkPid : Int
  execFails : Slot → Bool
  waits : List WaitRet

def STDOUT_FILENO : Nat := 1

def STDERR_FILENO : Nat := 2

/-- Function `execError(command, hint, application)`, as the insertions it makes
into `CERR`: `cannotExecute command` is `CERR << "Cannot execute " << command`
and `execHint hint application` is the insertion of the remediation text, with
both pointers as passed (the text names `hint` in place of `application` when
`application == ""` holds, a comparison of pointers).  What reaches the stream
is not modelled: after the insertion of a null `command` the stream is in a
failed state.  `string(hint)` is built before `hint` is tested, so a null
`hint` is a fault; otherwise the process exits with `-1`. -/
def execError (command : Slot) (hint application : Option (List Char)) :
    List Action × Outcome :=
  match hint with
  | none => ([Action.cannotExecute command], Outcome.fault)
  | some h =>
    ([Action.cannotExecute command, Action.execHint h application, Action.exit (-1)],
      Outcome.exited (-1))

/-- The statements of the `pid == 0` branch that precede `if(argv)`. -/
def childSetup (interactive : Bool) (quiet : Int) : List Action :=
  (if interactive then [Action.signal SIGINT Handler.SIG_IGN] else []) ++
  (if quiet ≠ 0 then
    [Action.creat "/dev/null".toList, Action.close STDOUT_FILENO,
      Action.dup2null STDOUT_FILENO] ++
    (if quiet = 2 then [Action.close STDERR_FILENO, Action.dup2null STDERR_FILENO] else [])
  else [])

/-- The loop `for(;;)` around `waitpid`.  `status` is the local variable
(`none` while nothing was stored in it); `waiting` is returned when the list
of `waitpid` results is used up. -/
def waitLoop (reportReturns : Bool) (command : List Char) (pid : Int) (quiet : Int)
    (wait : Bool) (argv : Option (List Slot)) :
    List WaitRet → Option WStatus → List Action → List Action × Outcome
  | [], _, tr => (tr, Outcome.waiting)
  | r :: rs, status, tr =>
    let tr := tr ++ [Action.waitpid pid (if wait then WaitOpt.block else WaitOpt.WNOHANG)]
    match r with
    | WaitRet.failed e =>
      if e = Errno.ECHILD then (tr, Outcome.returned 0)
      else if e ≠ Errno.EINTR then
        if quiet < 2 then
          let tr := tr ++ [Action.reportError ("Command failed: ".toList ++ command)]
          if reportReturns then waitLoop reportReturns command pid quiet wait argv rs status tr
          else (tr, Outcome.aborted)
        else waitLoop reportReturns command pid quiet wait argv rs status tr
      else waitLoop reportReturns command pid quiet wait argv rs status tr
    | r =>
      let status := match r with
        | WaitRet.changed st => some st
        | _ => status
      if !wait then (tr, Outcome.returned 0)
      else match status with
        | none => (tr, Outcome.fault)
        | some (WStatus.exited code) =>
          (tr ++ (match argv with
            | some a => [Action.deleteArgv a]
            | none => []), Outcome.returned code)
        | some WStatus.abnormal =>
          if quiet < 2 then
            let tr := tr ++ [Action.reportError ("Command exited abnormally: ".toList ++ command)]
            if reportReturns then waitLoop reportReturns command pid quiet wait argv rs status tr
            else (tr, Outcome.aborted)
          else waitLoop reportReturns command pid quiet wait argv rs status tr

/-- The code of `System` from `if(ppid) *ppid=pid;` on. -/
def parentPart (env : Env) (command : List Char) (quiet : Int) (wait : Bool)
    (argv : Option (List Slot)) (ppid : Bool) (tr : List Action) : List Action × Outcome :=
  waitLoop env.reportReturns command env.forkPid quiet wait argv env.waits none
    (tr ++ (if ppid then [Action.storePid env.forkPid] else []))

/-- Function `System(command, quiet, wait, hint, application, ppid)` run by one
process; `ppid` tells whether the output pointer is non-null.  The value
returned by `fork` is given in `env`, so this is a run that reaches `fork`: the
call of `args` has come back (`argsReturned`), and a cell without a string that
its diagnostic block streamed is kept in the trace. -/
def System (env : Env) (command : Option (List Char)) (quiet : Int) (wait : Bool)
    (hint application : Option (List Char)) (ppid : Bool) : List Action × Outcome :=
  match command with
  | none => ([], Outcome.returned 1)
  | some cmd =>
    match argsReturned env.verbose (some cmd) with
    | none => ([Action.flush], Outcome.fault)
    | some out =>
      let tr := [Action.flush] ++ (match out.echo with
        | some cells => [Action.echo cells]
        | none => []) ++ [Action.fork env.forkPid]
      let tr := if env.forkPid = -1 then
        tr ++ [Action.reportError "Cannot fork process".toList] else tr
      if env.forkPid = -1 ∧ env.reportReturns = false then (tr, Outcome.aborted)
      else if env.forkPid = 0 then
        let tr := tr ++ childSetup env.interactive quiet
        match out.argv with
        | some a =>
          let file := a.getD 0 Slot.uninit
          let tr := tr ++ [Action.execvp file a]
          if env.execFails file then
            ((tr ++ (execError file hint application).1), (execError file hint application).2)
          else (tr, Outcome.replaced)
        | none => parentPart env cmd quiet wait out.argv ppid tr
      else parentPart env cmd quiet wait out.argv ppid tr

/-- The disposition of `SIGINT` after the actions of a trace, starting from
the inherited disposition `d`. -/
def sigintAfter (d : Handler) : List Action → Handler
  | [] => d
  | Action.signal signum h :: tr => sigintAfter (if signum = SIGINT then h else d) tr
  | _ :: tr => sigintAfter d tr

/-! ## The tokenizer as a fold, used to state what the two passes compute -/

/-- Tokens completed so far together with the scanner flags. -/
structure Tok where
  acc : List (List Char)
  buf : List Char
  empty : Bool
  quote : Bool
deriving DecidableEq, Repr

/-- Effect of one non-NUL character on the tokens. -/
def tokStep (c : Char) (t : Tok) : Tok :=
  if !t.quote && c == ' ' then
    if !t.empty then { acc := t.acc ++ [t.buf], buf := [], empty := true, quote := t.quote }
    else t
  else if c == QUOTE then { t with empty := false, quote := !t.quote }
  else { t with empty := false, buf := t.buf ++ [c] }

/-- Effect of the characters before the first NUL. -/
def tokLoop : List Char → Tok → Tok
  | [], t => t
  | c :: p, t => if c = NUL then t else tokLoop p (tokStep c t)

/-- Tokens after the closing `if(!empty)`. -/
def tokFinish (t : Tok) : List (List Char) :=
  if !t.empty then t.acc ++ [t.buf] else t.acc

/-- The scanner state at the start of a pass, as a fold state. -/
def tok0 : Tok := { acc := [], buf := [], empty := true, quote := false }

/-- All tokens of a command. -/
def tokensOf (command : List Char) : List (List Char) :=
  tokFinish (tokLoop command tok0)


/-- The actions of `System` on a non-null command up to and including `fork`,
in terms of the fold. -/
def traceToFork (env : Env) (cmd : List Char) : List Action :=
  [Action.flush] ++
    (match echoCells env.verbose ((tokensOf cmd).map Slot.str ++ [Slot.uninit])
        (tokensOf cmd).length with
      | some cells => [Action.echo cells]
      | none => []) ++ [Action.fork env.forkPid]

/-- Actions that are not a call of `signal`. -/
def notSignal : Action → Bool
  | Action.signal _ _ => false
  | _ => true

/-! ## The two passes of `args` compute the fold -/

theorem tokStep_acc_le (c : Char) (t : Tok) : t.acc.length ≤ (tokStep c t).acc.length := by
  unfold tokStep
  split_ifs <;> simp

theorem tokLoop_acc_le (p : List Char) : ∀ t : Tok, t.acc.length ≤ (tokLoop p t).acc.length := by
  induction p with
  | nil => intro t; simp [tokLoop]
  | cons c p ih =>
    intro t
    unfold tokLoop
    split_ifs
    · exact le_refl _
    · exact le_trans (tokStep_acc_le c t) (ih _)

/-- Pass 0 counts the tokens of the fold and touches nothing else. -/
theorem whileLoop_count (p : List Char) : ∀ (t : Tok) (a : List Slot) (b : List Char),
    whileLoop false p ⟨a, b, t.empty, t.quote, t.acc.length⟩ =
      some ⟨a, b, (tokLoop p t).empty, (tokLoop p t).quote, (tokLoop p t).acc.length⟩ := by
  induction p with
  | nil => intro t a b; simp [whileLoop, tokLoop]
  | cons c p ih =>
    intro t a b
    unfold whileLoop tokLoop
    by_cases hc : c = NUL
    · simp [hc]
    · simp only [hc, if_false]
      have hb : body false c ⟨a, b, t.empty, t.quote, t.acc.length⟩ =
          some ⟨a, b, (tokStep c t).empty, (tokStep c t).quote, (tokStep c t).acc.length⟩ := by
        unfold body tokStep
        split_ifs <;> simp_all
      rw [hb]
      exact ih (tokStep c t) a b

/-- Pass 1 stores the tokens of the fold in the leading cells, as long as the
array has room for them. -/
theorem whileLoop_copy (p : List Char) : ∀ (t : Tok) (m : Nat),
    (tokLoop p t).acc.length ≤ t.acc.length + m →
    whileLoop true p
        ⟨t.acc.map Slot.str ++ List.replicate m Slot.uninit, t.buf, t.empty, t.quote,
          t.acc.length⟩ =
      some ⟨(tokLoop p t).acc.map Slot.str ++
          List.replicate (t.acc.length + m - (tokLoop p t).acc.length) Slot.uninit,
        (tokLoop p t).buf, (tokLoop p t).empty, (tokLoop p t).quote,
        (tokLoop p t).acc.length⟩ := by
  induction p with
  | nil => intro t m _; simp [whileLoop, tokLoop]
  | cons c p ih =>
    intro t m h
    unfold whileLoop
    unfold tokLoop at h ⊢
    by_cases hc : c = NUL
    · simp [hc]
    · simp only [hc, if_false] at h ⊢
      have hm := tokLoop_acc_le p (tokStep c t)
      have hs : (tokStep c t).acc.length ≤ t.acc.length + m := le_trans hm h
      have hb : body true c
            ⟨t.acc.map Slot.str ++ List.replicate m Slot.uninit, t.buf, t.empty, t.quote,
              t.acc.length⟩ =
          some ⟨(tokStep c t).acc.map Slot.str ++
              List.replicate (t.acc.length + m - (tokStep c t).acc.length) Slot.uninit,
            (tokStep c t).buf, (tokStep c t).empty, (tokStep c t).quote,
            (tokStep c t).acc.length⟩ := by
        unfold body tokStep at *
        split_ifs at hs ⊢ <;> simp_all [store]
        obtain ⟨k, rfl⟩ : ∃ k, m = k + 1 := ⟨m - 1, by omega⟩
        simp [List.replicate_succ]
        omega
      rw [hb, Option.some_bind]
      have := ih (tokStep c t) (t.acc.length + m - (tokStep c t).acc.length) (by omega)
      rw [this]
      have e : (tokStep c t).acc.length + (t.acc.length + m - (tokStep c t).acc.length) -
          (tokLoop p (tokStep c t)).acc.length =
          t.acc.length + m - (tokLoop p (tokStep c t)).acc.length := by omega
      rw [e]

theorem tok0_fields :
    tok0.acc = [] ∧ tok0.buf = [] ∧ tok0.empty = true ∧ tok0.quote = false :=
  ⟨rfl, rfl, rfl, rfl⟩

/-- Pass 0 leaves in `n` the number of tokens of the command. -/
theorem runPass_count (cmd : List Char) (n : Nat) :
    runPass false cmd n =
      some ⟨[], [], (tokLoop cmd tok0).empty, (tokLoop cmd tok0).quote,
        (tokensOf cmd).length⟩ := by
  unfold runPass
  have h := whileLoop_count cmd tok0 [] []
  simp only [tok0_fields, List.length_nil] at h
  simp only [Bool.false_eq_true, if_false, h, Option.some_bind]
  unfold tokensOf tokFinish
  cases he : (tokLoop cmd tok0).empty <;> simp

/-- Pass 1, run in an array of one cell more than the number of tokens, stores
every token and leaves the last cell unassigned. -/
theorem runPass_copy (cmd : List Char) :
    runPass true cmd (tokensOf cmd).length =
      some ⟨(tokensOf cmd).map Slot.str ++ [Slot.uninit], (tokLoop cmd tok0).buf,
        (tokLoop cmd tok0).empty, (tokLoop cmd tok0).quote, (tokensOf cmd).length⟩ := by
  unfold runPass
  have hle : (tokLoop cmd tok0).acc.length ≤ (tokensOf cmd).length := by
    unfold tokensOf tokFinish
    split_ifs <;> simp
  have h := whileLoop_copy cmd tok0 ((tokensOf cmd).length + 1)
    (by simp only [tok0_fields, List.length_nil]; omega)
  simp only [tok0_fields, List.length_nil, List.map_nil, List.nil_append, Nat.zero_add] at h
  simp only [if_true, h, Option.some_bind]
  unfold tokensOf tokFinish at hle ⊢
  cases he : (tokLoop cmd tok0).empty
  · simp only [he, Bool.not_false, if_true, List.length_append, List.length_singleton,
      store, List.length_map, List.length_replicate]
    have e : (tokLoop cmd tok0).acc.length + 1 + 1 - (tokLoop cmd tok0).acc.length = 1 + 1 := by
      omega
    rw [e]
    simp [List.replicate_succ]
  · simp [List.replicate_succ]

/-- What the call of `args` hands back on a non-null command, in terms of the
fold. -/
theorem argsReturned_some (verbose : Int) (cmd : List Char) :
    argsReturned verbose (some cmd) =
      some ⟨some (argvOf (tokensOf cmd)),
        echoCells verbose ((tokensOf cmd).map Slot.str ++ [Slot.uninit]) (tokensOf cmd).length⟩ := by
  unfold argsReturned
  simp only [runPass_count, Option.some_bind, runPass_copy]
  simp [store, argvOf]

theorem getD_isStr (tokens : List (List Char)) : ∀ m : Nat, m < tokens.length →
    ((tokens.map Slot.str ++ [Slot.uninit]).getD m Slot.uninit).isStr = true := by
  induction tokens with
  | nil => intro m hm; simp at hm
  | cons t ts ih =>
    intro m hm
    cases m with
    | zero => rfl
    | succ k =>
      have := ih k (by simpa using hm)
      simpa using this

/-- The diagnostic block is defined unless it is on and there is no token. -/
theorem echoDefined_tokens (verbose : Int) (tokens : List (List Char)) :
    echoDefined (echoCells verbose (tokens.map Slot.str ++ [Slot.uninit]) tokens.length) =
      !(decide (1 < verbose) && tokens.isEmpty) := by
  unfold echoCells echoDefined
  by_cases hv : 1 < verbose
  · have hv2 : verbose > 1 := hv
    simp only [hv2, if_true, hv, decide_True, Bool.true_and]
    cases tokens with
    | nil => rfl
    | cons t ts =>
      simp only [List.isEmpty_cons, Bool.not_false, List.all_eq_true]
      intro c hc
      rcases List.mem_cons.mp hc with h | h
      · subst h; rfl
      · obtain ⟨m, hm, rfl⟩ := List.mem_map.mp h
        rw [List.mem_range'_1] at hm
        exact getD_isStr (t :: ts) m (by simp only [List.length_cons] at hm ⊢; omega)
  · have hv2 : ¬ verbose > 1 := hv
    simp [hv2, hv]

/-- What `args` returns on a non-null command, in terms of the fold: it fails
exactly when the diagnostic block is on and the command has no token. -/
theorem args_eq (verbose : Int) (cmd : List Char) :
    args verbose (some cmd) =
      if 1 < verbose ∧ tokensOf cmd = [] then none
      else some ⟨some (argvOf (tokensOf cmd)),
        echoCells verbose ((tokensOf cmd).map Slot.str ++ [Slot.uninit])
          (tokensOf cmd).length⟩ := by
  unfold args
  simp only [runPass_count, Option.some_bind, runPass_copy, echoDefined_tokens]
  by_cases hv : 1 < verbose <;> cases ht : tokensOf cmd <;> simp [hv, store, argvOf]

/-- With `verbose > 1` and a command without tokens, the diagnostic block
streams the cell `argv[0]` before anything was assigned to it: `args` fails,
and a run that goes on gets the sentinel alone. -/
theorem args_echo_unassigned :
    args 2 (some []) = none ∧
    argsReturned 2 (some []) = some ⟨some [Slot.null], some [Slot.uninit]⟩ := by
  decide

/-! ## Computing the fold -/

theorem tokLoop_append (a b : List Char) (ha : ∀ c ∈ a, c ≠ NUL) :
    ∀ t : Tok, tokLoop (a ++ b) t = tokLoop b (tokLoop a t) := by
  induction a with
  | nil => intro t; simp [tokLoop]
  | cons c a ih =>
    intro t
    have hc : c ≠ NUL := ha c (List.mem_cons_self _ _)
    simp only [List.cons_append, tokLoop, hc, if_false]
    exact ih (fun d hd => ha d (List.mem_cons_of_mem _ hd)) _

/-- A run of characters that neither end a token nor toggle the quote flag is
appended to the buffer. -/
theorem tokLoop_plain (s : List Char) : ∀ t : Tok,
    (∀ c ∈ s, c ≠ NUL ∧ c ≠ QUOTE ∧ (t.quote = false → c ≠ ' ')) →
    tokLoop s t = ⟨t.acc, t.buf ++ s, t.empty && s.isEmpty, t.quote⟩ := by
  induction s with
  | nil => intro t _; simp [tokLoop]
  | cons c s ih =>
    intro t h
    obtain ⟨h1, h2, h3⟩ := h c (List.mem_cons_self _ _)
    have hstep : tokStep c t = ⟨t.acc, t.buf ++ [c], false, t.quote⟩ := by
      unfold tokStep
      cases hq : t.quote <;> simp_all
    simp only [tokLoop, h1, if_false, hstep]
    rw [ih]
    · simp
    · intro d hd
      exact h d (List.mem_cons_of_mem _ hd)

theorem modifyHead_self (l : List (List Char)) : l.modifyHead (fun x => x) = l := by
  cases l <;> rfl

theorem tokStep_space (t : Tok) (hq : t.quote = false) :
    tokStep ' ' t =
      if t.empty then t else ⟨t.acc ++ [t.buf], [], true, false⟩ := by
  unfold tokStep
  cases he : t.empty <;> simp [hq]

theorem tokStep_quote (t : Tok) :
    tokStep QUOTE t = ⟨t.acc, t.buf, false, !t.quote⟩ := by
  unfold tokStep
  have : (QUOTE == ' ') = false := by decide
  simp [this]

/-- Without quotes the fold yields the non-empty fields between spaces. -/
theorem tokFinish_tokLoop_noquote (s : List Char) : ∀ t : Tok,
    (∀ c ∈ s, c ≠ NUL ∧ c ≠ QUOTE) → t.quote = false → t.empty = t.buf.isEmpty →
    tokFinish (tokLoop s t) =
      t.acc ++ ((s.splitOn ' ').modifyHead (t.buf ++ ·)).filter fun x => !x.isEmpty := by
  induction s with
  | nil =>
    intro t _ _ he
    simp only [tokLoop, tokFinish, he, List.splitOn, List.splitOnP_nil, List.modifyHead_cons,
      List.append_nil]
    cases hb : t.buf.isEmpty <;> simp [hb]
  | cons c s ih =>
    intro t h hq he
    obtain ⟨h1, h2⟩ := h c (List.mem_cons_self _ _)
    have hs : ∀ d ∈ s, d ≠ NUL ∧ d ≠ QUOTE := fun d hd => h d (List.mem_cons_of_mem _ hd)
    simp only [tokLoop, h1, if_false, List.splitOn, List.splitOnP_cons]
    by_cases hc : c = ' '
    · subst hc
      rw [tokStep_space t hq]
      cases hb : t.buf.isEmpty
      · rw [hb] at he
        simp only [he, Bool.false_eq_true, if_false]
        rw [ih _ hs rfl rfl]
        simp [List.splitOn, hb, modifyHead_self]
      · rw [hb] at he
        simp only [he, if_true]
        rw [ih _ hs hq (by rw [he, hb])]
        have : t.buf = [] := by simpa using hb
        simp [List.splitOn, this, modifyHead_self]
    · have hstep : tokStep c t = ⟨t.acc, t.buf ++ [c], false, false⟩ := by
        unfold tokStep
        simp [hq, hc, h2]
      rw [hstep, ih _ hs rfl (by simp)]
      simp [List.splitOn, hc, List.modifyHead_modifyHead, Function.comp_def]

theorem tokensOf_noquote (s : List Char) (h : ∀ c ∈ s, c ≠ NUL ∧ c ≠ QUOTE) :
    tokensOf s = spaceRuns s := by
  unfold tokensOf spaceRuns
  rw [tokFinish_tokLoop_noquote s tok0 h rfl rfl]
  have e : (fun x : List Char => tok0.buf ++ x) = fun x => x := by funext x; rfl
  rw [e, modifyHead_self]
  rfl

theorem tokLoop_cons (c : Char) (p : List Char) (t : Tok) (hc : c ≠ NUL) :
    tokLoop (c :: p) t = tokLoop p (tokStep c t) := by
  simp [tokLoop, hc]

theorem space_ne_NUL : ' ' ≠ NUL := by decide

theorem QUOTE_ne_NUL : QUOTE ≠ NUL := by decide

/-- The fold on a word, an opening quote, a quoted span and the rest. -/
theorem tokLoop_word_quote (u q rest : List Char) (hu : u ≠ [])
    (hu2 : ∀ c ∈ u, c ≠ NUL ∧ c ≠ ' ' ∧ c ≠ QUOTE) (hq : ∀ c ∈ q, c ≠ NUL ∧ c ≠ QUOTE) :
    tokLoop (u ++ ' ' :: QUOTE :: (q ++ rest)) tok0 = tokLoop rest ⟨[u], q, false, true⟩ := by
  rw [tokLoop_append u _ (fun c hc => (hu2 c hc).1),
    tokLoop_plain u tok0 (fun c hc => ⟨(hu2 c hc).1, (hu2 c hc).2.2, fun _ => (hu2 c hc).2.1⟩),
    tokLoop_cons _ _ _ space_ne_NUL, tokStep_space _ rfl]
  have hne : u.isEmpty = false := by cases u <;> simp_all
  simp only [tok0_fields, hne, Bool.and_false, Bool.false_eq_true, if_false, List.nil_append]
  rw [tokLoop_cons _ _ _ QUOTE_ne_NUL, tokStep_quote,
    tokLoop_append q _ (fun c hc => (hq c hc).1),
    tokLoop_plain q _ (fun c hc => ⟨(hq c hc).1, (hq c hc).2, fun h => by simp at h⟩)]
  simp

theorem tokLoop_spaces (s : List Char) (h : ∀ c ∈ s, c = ' ') :
    tokLoop s tok0 = tok0 := by
  induction s with
  | nil => rfl
  | cons c s ih =>
    have hc : c = ' ' := h c (List.mem_cons_self _ _)
    subst hc
    rw [tokLoop_cons _ _ _ space_ne_NUL, tokStep_space _ rfl]
    simp only [tok0_fields, if_true]
    exact ih (fun d hd => h d (List.mem_cons_of_mem _ hd))

/-! ## What `spaceRuns` is -/

theorem splitOnP_mem_free (p : Char → Bool) : ∀ xs : List Char,
    ∀ l ∈ xs.splitOnP p, ∀ x ∈ l, p x = false := by
  intro xs
  induction xs with
  | nil =>
    intro l hl x hx
    simp only [List.splitOnP_nil, List.mem_singleton] at hl
    subst hl
    cases hx
  | cons a xs ih =>
    intro l hl x hx
    rw [List.splitOnP_cons] at hl
    by_cases ha : p a = true
    · rw [if_pos ha] at hl
      rcases List.mem_cons.mp hl with h | h
      · subst h; cases hx
      · exact ih l h x hx
    · rw [if_neg ha] at hl
      cases hsp : xs.splitOnP p with
      | nil => exact absurd hsp (List.splitOnP_ne_nil p xs)
      | cons hd tl =>
        rw [hsp] at hl ih
        simp only [List.modifyHead_cons, List.mem_cons] at hl
        rcases hl with h | h
        · subst h
          rcases List.mem_cons.mp hx with h2 | h2
          · subst h2; simpa using ha
          · exact ih hd (List.mem_cons_self _ _) x h2
        · exact ih l (List.mem_cons_of_mem _ h) x hx

/-- Every run is non-empty and contains no space. -/
theorem spaceRuns_mem (s t : List Char) (h : t ∈ spaceRuns s) : t ≠ [] ∧ ' ' ∉ t := by
  unfold spaceRuns at h
  rw [List.mem_filter] at h
  refine ⟨by intro e; subst e; simp at h, fun hsp => ?_⟩
  have := splitOnP_mem_free (fun x => x == ' ') s t h.1 ' ' hsp
  simp at this

theorem spaceRuns_nil : spaceRuns [] = [] := by decide

/-- A space contributes nothing. -/
theorem spaceRuns_space (s : List Char) : spaceRuns (' ' :: s) = spaceRuns s := by
  simp [spaceRuns, List.splitOn, List.splitOnP_cons]

/-- A non-empty run without space, closed by a space, is the first token. -/
theorem spaceRuns_word (t s : List Char) (ht : t ≠ []) (hsp : ' ' ∉ t) :
    spaceRuns (t ++ ' ' :: s) = t :: spaceRuns s := by
  unfold spaceRuns List.splitOn
  rw [List.splitOnP_first (fun x => x == ' ') t (fun x hx => by
    simp only [beq_iff_eq]
    intro e
    exact hsp (e ▸ hx)) ' ' (by simp)]
  cases t with
  | nil => exact absurd rfl ht
  | cons a t => simp

/-- A non-empty run without space that ends the command is the last token. -/
theorem spaceRuns_last (t : List Char) (ht : t ≠ []) (hsp : ' ' ∉ t) :
    spaceRuns t = [t] := by
  unfold spaceRuns List.splitOn
  rw [List.splitOnP_eq_single (fun x => x == ' ') t (fun x hx => by
    simp only [beq_iff_eq]
    intro e
    exact hsp (e ▸ hx))]
  cases t with
  | nil => exact absurd rfl ht
  | cons a t => simp

/-! ## The tokenizer claims -/

/-- C1, evaluated on the code: on a command without a single quote, `args`
returns, in input order, exactly the maximal runs of non-space characters (the
non-empty fields between spaces) followed by the NULL sentinel, and no token is
empty or contains a space; except that with `verbose > 1` on a command without
any run (empty or all spaces) it fails, the diagnostic block streaming the
cell `argv[0]` to which nothing was assigned. -/
theorem args_noquote_runs (verbose : Int) (s : List Char)
    (hnul : ∀ c ∈ s, c ≠ NUL) (hquote : ∀ c ∈ s, c ≠ QUOTE) :
    (args verbose (some s)).map (fun r => r.argv) =
        (if 1 < verbose ∧ spaceRuns s = [] then none
          else some (some (argvOf (spaceRuns s)))) ∧
      ∀ t ∈ spaceRuns s, t ≠ [] ∧ ' ' ∉ t := by
  refine ⟨?_, spaceRuns_mem s⟩
  rw [args_eq, tokensOf_noquote s (fun c hc => ⟨hnul c hc, hquote c hc⟩)]
  split_ifs <;> rfl

/-- Witness of C1 on the commands `a b c`, the empty command and three spaces,
with the diagnostic block off, and on the empty command with it on. -/
theorem args_noquote_runs_witness :
    ((∀ c ∈ "a b c".toList, c ≠ NUL) ∧ (∀ c ∈ "a b c".toList, c ≠ QUOTE) ∧
      (args 0 (some "a b c".toList)).map (fun r => r.argv) =
        some (some [Slot.str "a".toList, Slot.str "b".toList, Slot.str "c".toList, Slot.null])) ∧
    (args 0 (some "".toList)).map (fun r => r.argv) = some (some [Slot.null]) ∧
    (args 0 (some "   ".toList)).map (fun r => r.argv) = some (some [Slot.null]) ∧
    (args 2 (some "".toList)).map (fun r => r.argv) = none :=
  ⟨⟨by decide, by decide,
      (args_noquote_runs 0 "a b c".toList (by decide) (by decide)).1.trans (by decide)⟩,
    (args_noquote_runs 0 "".toList (by decide) (by decide)).1.trans (by decide),
    (args_noquote_runs 0 "   ".toList (by decide) (by decide)).1.trans (by decide),
    (args_noquote_runs 2 "".toList (by decide) (by decide)).1.trans (by decide)⟩

/-- C2: for non-empty words `u`, `w` without space or quote and a span `q`
without quote, `args` on `u ++ " '" ++ q ++ "' " ++ w` returns exactly the three
tokens `u`, `q`, `w`: the quoted span is one token, with its spaces and without
the two quote characters. -/
theorem args_quoted_span (verbose : Int) (u q w : List Char) (hu : u ≠ []) (hw : w ≠ [])
    (hu2 : ∀ c ∈ u, c ≠ NUL ∧ c ≠ ' ' ∧ c ≠ QUOTE)
    (hq : ∀ c ∈ q, c ≠ NUL ∧ c ≠ QUOTE)
    (hw2 : ∀ c ∈ w, c ≠ NUL ∧ c ≠ ' ' ∧ c ≠ QUOTE) :
    (args verbose (some (u ++ [' ', QUOTE] ++ q ++ [QUOTE, ' '] ++ w))).map (fun r => r.argv) =
      some (some [Slot.str u, Slot.str q, Slot.str w, Slot.null]) := by
  have e : u ++ [' ', QUOTE] ++ q ++ [QUOTE, ' '] ++ w =
      u ++ ' ' :: QUOTE :: (q ++ QUOTE :: ' ' :: w) := by simp
  have ht : tokensOf (u ++ ' ' :: QUOTE :: (q ++ QUOTE :: ' ' :: w)) = [u, q, w] := by
    unfold tokensOf
    rw [tokLoop_word_quote u q _ hu hu2 hq, tokLoop_cons _ _ _ QUOTE_ne_NUL, tokStep_quote,
      tokLoop_cons _ _ _ space_ne_NUL, tokStep_space _ rfl]
    simp only [Bool.false_eq_true, if_false, Bool.not_true]
    rw [tokLoop_plain w _
      (fun c hc => ⟨(hw2 c hc).1, (hw2 c hc).2.2, fun _ => (hw2 c hc).2.1⟩)]
    have hne : w.isEmpty = false := by cases w <;> simp_all
    simp [tokFinish, hne]
  rw [e, args_eq, ht]
  simp [argvOf]

/-- Witness of C2 on the command `a 'b c' d`. -/
theorem args_quoted_span_witness :
    "a".toList ≠ [] ∧ "d".toList ≠ [] ∧
    (∀ c ∈ "a".toList, c ≠ NUL ∧ c ≠ ' ' ∧ c ≠ QUOTE) ∧
    (∀ c ∈ "b c".toList, c ≠ NUL ∧ c ≠ QUOTE) ∧
    (∀ c ∈ "d".toList, c ≠ NUL ∧ c ≠ ' ' ∧ c ≠ QUOTE) ∧
    "a".toList ++ [' ', QUOTE] ++ "b c".toList ++ [QUOTE, ' '] ++ "d".toList =
      "a 'b c' d".toList ∧
    (args 0 (some ("a".toList ++ [' ', QUOTE] ++ "b c".toList ++ [QUOTE, ' '] ++ "d".toList))).map
        (fun r => r.argv) =
      some (some [Slot.str "a".toList, Slot.str "b c".toList, Slot.str "d".toList, Slot.null]) :=
  ⟨by decide, by decide, by decide, by decide, by decide, by decide,
    args_quoted_span 0 "a".toList "b c".toList "d".toList (by decide) (by decide) (by decide)
      (by decide) (by decide)⟩

/-- C3: an unbalanced quote is not rejected; for a non-empty word `u` without
space or quote and a remainder `r` without quote, `args` on `u ++ " '" ++ r`
returns exactly the two tokens `u` and `r`, every space of `r` kept. -/
theorem args_unbalanced_quote (verbose : Int) (u r : List Char) (hu : u ≠ [])
    (hu2 : ∀ c ∈ u, c ≠ NUL ∧ c ≠ ' ' ∧ c ≠ QUOTE)
    (hr : ∀ c ∈ r, c ≠ NUL ∧ c ≠ QUOTE) :
    (args verbose (some (u ++ [' ', QUOTE] ++ r))).map (fun o => o.argv) =
      some (some [Slot.str u, Slot.str r, Slot.null]) := by
  have e : u ++ [' ', QUOTE] ++ r = u ++ ' ' :: QUOTE :: (r ++ []) := by simp
  have ht : tokensOf (u ++ ' ' :: QUOTE :: (r ++ [])) = [u, r] := by
    unfold tokensOf
    rw [tokLoop_word_quote u r _ hu hu2 hr]
    simp [tokLoop, tokFinish]
  rw [e, args_eq, ht]
  simp [argvOf]

/-- Witness of C3 on the command `a 'b c`. -/
theorem args_unbalanced_quote_witness :
    "a".toList ≠ [] ∧ (∀ c ∈ "a".toList, c ≠ NUL ∧ c ≠ ' ' ∧ c ≠ QUOTE) ∧
    (∀ c ∈ "b c".toList, c ≠ NUL ∧ c ≠ QUOTE) ∧
    "a".toList ++ [' ', QUOTE] ++ "b c".toList = "a 'b c".toList ∧
    (args 0 (some ("a".toList ++ [' ', QUOTE] ++ "b c".toList))).map (fun o => o.argv) =
      some (some [Slot.str "a".toList, Slot.str "b c".toList, Slot.null]) :=
  ⟨by decide, by decide, by decide, by decide,
    args_unbalanced_quote 0 "a".toList "b c".toList (by decide) (by decide) (by decide)⟩

/-- C4, evaluated on the code: for every non-null command the count `n` left by
the first pass is the number of tokens stored by the second pass into the
array of `n+1` cells: no store falls outside the array, cells `0 .. n-1` hold
the tokens and the last cell is still unassigned after the loop.  `args` then
returns that array with NULL in the last cell, except when `verbose > 1` and
`n` is 0, where it fails before the sentinel is stored, the diagnostic block
streaming the unassigned cell `argv[0]`. -/
theorem args_two_pass_null_terminated (verbose : Int) (cmd : List Char) :
    ∃ (s0 s1 : Scan) (tokens : List (List Char)),
      runPass false cmd 0 = some s0 ∧
      runPass true cmd s0.n = some s1 ∧
      s1.n = s0.n ∧ tokens.length = s0.n ∧
      s1.argv = tokens.map Slot.str ++ [Slot.uninit] ∧
      (args verbose (some cmd)).map (fun r => r.argv) =
        (if 1 < verbose ∧ s0.n = 0 then none
          else some (some (tokens.map Slot.str ++ [Slot.null]))) := by
  refine ⟨_, _, tokensOf cmd, runPass_count cmd 0, runPass_copy cmd, rfl, rfl, rfl, ?_⟩
  rw [args_eq]
  simp only [List.length_eq_zero]
  split_ifs <;> rfl

/-- C5, as stated, fails: a command made of one tab is one token, not the
empty token list; so is a command made of one newline. -/
theorem args_tab_is_token :
    (args 0 (some [Char.ofNat 9])).map (fun r => r.argv) =
        some (some [Slot.str [Char.ofNat 9], Slot.null]) ∧
    (args 0 (some [Char.ofNat 9])).map (fun r => r.argv) ≠ some (some (argvOf [])) ∧
    (args 0 (some [Char.ofNat 10])).map (fun r => r.argv) ≠ some (some (argvOf [])) := by
  decide

/-- C5, amended: for every command that is empty or made only of space
characters, with the diagnostic block off (`verbose` at most 1), `args`
returns the empty token list, the sentinel alone. -/
theorem args_only_spaces (verbose : Int) (s : List Char) (hv : verbose ≤ 1)
    (h : ∀ c ∈ s, c = ' ') :
    (args verbose (some s)).map (fun r => r.argv) = some (some [Slot.null]) := by
  have hn : ¬ (1 < verbose ∧ tokensOf s = []) := fun hc => absurd hc.1 (not_lt.mpr hv)
  rw [args_eq, if_neg hn]
  unfold tokensOf
  rw [tokLoop_spaces s h]
  rfl

/-- Witness of the amended C5 on the empty command and on three spaces. -/
theorem args_only_spaces_witness :
    ((0 : Int) ≤ 1 ∧ (∀ c ∈ "   ".toList, c = ' ') ∧
      (args 0 (some "   ".toList)).map (fun r => r.argv) = some (some [Slot.null])) ∧
    (args 1 (some [])).map (fun r => r.argv) = some (some [Slot.null]) :=
  ⟨⟨by decide, by decide, args_only_spaces 0 "   ".toList (by decide) (by decide)⟩,
    args_only_spaces 1 [] (by decide) (by decide)⟩

/-! ## `stripext` -/

theorem rfindFrom_hit (s t : List Char) (pos : Nat)
    (h : (s.drop pos).take t.length = t) : rfindFrom s t pos = pos := by
  cases pos with
  | zero =>
    have h2 : s.take t.length = t := by simpa using h
    simp [rfindFrom, h2]
  | succ k => simp [rfindFrom, h]

theorem rfindFrom_miss (s t : List Char) : ∀ pos : Nat,
    (s.drop pos).take t.length ≠ t → rfindFrom s t pos < pos ∨ rfindFrom s t pos = npos := by
  intro pos
  induction pos with
  | zero =>
    intro h
    right
    have h2 : ¬ s.take t.length = t := by simpa using h
    simp [rfindFrom, h2]
  | succ k ih =>
    intro h
    simp only [rfindFrom, h, if_false]
    by_cases hk : (s.drop k).take t.length = t
    · left
      rw [rfindFrom_hit s t k hk]
      exact Nat.lt_succ_self k
    · rcases ih hk with h1 | h1
      · left; omega
      · right; exact h1

/-- C10: with `suffix = "." ++ ext`, `stripext(name, ext)` is `name` without its
last `suffix.length()` characters when `name` ends with `suffix`, and `name`
itself otherwise; this also holds when `name` is shorter than `suffix`, where
the `size_t` difference of the lengths wraps around modulo `2 ^ 64` and can
equal `npos`.  The two length bounds say that both strings fit in a `size_t`. -/
theorem stripext_spec (name ext : List Char) (hn : name.length < 2 ^ 64)
    (he : ext.length + 1 < 2 ^ 64) :
    stripext name ext =
      if ('.' :: ext) <:+ name then name.take (name.length - ('.' :: ext).length)
      else name := by
  have h64 : (2 : Nat) ^ 64 = 18446744073709551616 := by norm_num
  rw [h64] at hn he
  unfold stripext rfind substr0
  simp only [npos, h64, List.length_cons]
  by_cases hle : ext.length + 1 ≤ name.length
  · have hmin : min (name.length - (ext.length + 1)) (18446744073709551616 - 1) =
        name.length - (ext.length + 1) := by omega
    have hmod : (name.length + 18446744073709551616 - (ext.length + 1)) % 18446744073709551616 =
        name.length - (ext.length + 1) := by omega
    simp only [hle, if_true, hmin, hmod]
    by_cases hs : ('.' :: ext) <:+ name
    · have hd : (name.drop (name.length - (ext.length + 1))).take ('.' :: ext).length =
          '.' :: ext := by
        have := List.suffix_iff_eq_drop.mp hs
        simp only [List.length_cons] at this
        rw [← this]
        simp
      rw [rfindFrom_hit _ _ _ hd]
      simp [hs]
    · have hd : (name.drop (name.length - (ext.length + 1))).take ('.' :: ext).length ≠
          '.' :: ext := by
        intro h
        apply hs
        rw [List.suffix_iff_eq_drop]
        have hl : (name.drop (name.length - (ext.length + 1))).length = ('.' :: ext).length := by
          simp only [List.length_drop, List.length_cons]
          omega
        rw [List.take_of_length_le (le_of_eq hl)] at h
        simpa using h.symm
      have hne : rfindFrom name ('.' :: ext) (name.length - (ext.length + 1)) ≠
          name.length - (ext.length + 1) := by
        rcases rfindFrom_miss _ _ _ hd with h1 | h1
        · omega
        · rw [h1, npos, h64]; omega
      simp [hne, hs]
  · have hs : ¬ ('.' :: ext) <:+ name := by
      intro h
      have := h.length_le
      simp only [List.length_cons] at this
      omega
    simp only [hle, if_false, hs]
    split_ifs with h
    · have : min (18446744073709551616 - 1) name.length = name.length := by omega
      rw [this, List.take_length]
    · rfl

/-- Witness of C10 on `foo.eps` with extension `eps`, and on the empty name
with the empty extension, where the difference of the lengths wraps to `npos`. -/
theorem stripext_spec_witness :
    ("foo.eps".toList.length < 2 ^ 64 ∧ "eps".toList.length + 1 < 2 ^ 64 ∧
      stripext "foo.eps".toList "eps".toList = "foo".toList) ∧
    stripext [] [] = [] :=
  ⟨⟨by decide, by decide,
      (stripext_spec "foo.eps".toList "eps".toList (by decide) (by decide)).trans (by decide)⟩,
    (stripext_spec [] [] (by decide) (by decide)).trans (by decide)⟩

/-! ## `System` -/

theorem System_parent (env : Env) (cmd : List Char) (quiet : Int) (wait : Bool)
    (hint application : Option (List Char)) (ppid : Bool)
    (h0 : env.forkPid ≠ 0) (h1 : env.forkPid ≠ -1) :
    System env (some cmd) quiet wait hint application ppid =
      parentPart env cmd quiet wait (some (argvOf (tokensOf cmd))) ppid (traceToFork env cmd) := by
  unfold System
  simp only [argsReturned_some, h0, h1, if_false, false_and, traceToFork]

theorem System_child (env : Env) (cmd : List Char) (quiet : Int) (wait : Bool)
    (hint application : Option (List Char)) (ppid : Bool) (h0 : env.forkPid = 0) :
    System env (some cmd) quiet wait hint application ppid =
      if env.execFails ((argvOf (tokensOf cmd)).getD 0 Slot.uninit) then
        (traceToFork env cmd ++ childSetup env.interactive quiet ++
            [Action.execvp ((argvOf (tokensOf cmd)).getD 0 Slot.uninit) (argvOf (tokensOf cmd))] ++
            (execError ((argvOf (tokensOf cmd)).getD 0 Slot.uninit) hint application).1,
          (execError ((argvOf (tokensOf cmd)).getD 0 Slot.uninit) hint application).2)
      else
        (traceToFork env cmd ++ childSetup env.interactive quiet ++
            [Action.execvp ((argvOf (tokensOf cmd)).getD 0 Slot.uninit) (argvOf (tokensOf cmd))],
          Outcome.replaced) := by
  unfold System
  have h1 : ¬ ((0 : Int) = -1) := by decide
  simp only [argsReturned_some, h0, h1, if_false, if_true, false_and, traceToFork]

theorem traceToFork_noReport (env : Env) (cmd : List Char) (msg : List Char) :
    Action.reportError msg ∉ traceToFork env cmd := by
  unfold traceToFork
  cases echoCells env.verbose ((tokensOf cmd).map Slot.str ++ [Slot.uninit])
    (tokensOf cmd).length <;> simp

/-- Interrupted waits are retried; a normal exit then ends the loop with the
exit code, after the argument list is released. -/
theorem waitLoop_EINTR_exited (rr : Bool) (cmd : List Char) (pid : Int) (quiet : Int)
    (argv : List Slot) (c : Nat) (rest : List WaitRet) (status : Option WStatus) :
    ∀ (k : Nat) (tr : List Action),
      waitLoop rr cmd pid quiet true (some argv)
          (List.replicate k (WaitRet.failed Errno.EINTR) ++
            WaitRet.changed (WStatus.exited c) :: rest) status tr =
        (tr ++ List.replicate (k + 1) (Action.waitpid pid WaitOpt.block) ++
          [Action.deleteArgv argv], Outcome.returned c) := by
  intro k
  induction k with
  | zero => intro tr; simp [waitLoop]
  | succ k ih =>
    intro tr
    simp only [List.replicate_succ, List.cons_append, waitLoop]
    simp only [if_true, reduceCtorEq, if_false, ne_eq, not_true_eq_false]
    refine (ih _).trans ?_
    simp [List.replicate_succ]

/-- Interrupted waits are retried; `ECHILD` then ends the loop with `0`. -/
theorem waitLoop_EINTR_ECHILD (rr : Bool) (cmd : List Char) (pid : Int) (quiet : Int)
    (wait : Bool) (argv : Option (List Slot)) (rest : List WaitRet) (status : Option WStatus) :
    ∀ (k : Nat) (tr : List Action),
      waitLoop rr cmd pid quiet wait argv
          (List.replicate k (WaitRet.failed Errno.EINTR) ++
            WaitRet.failed Errno.ECHILD :: rest) status tr =
        (tr ++ List.replicate (k + 1)
            (Action.waitpid pid (if wait then WaitOpt.block else WaitOpt.WNOHANG)),
          Outcome.returned 0) := by
  intro k
  induction k with
  | zero => intro tr; simp [waitLoop]
  | succ k ih =>
    intro tr
    simp only [List.replicate_succ, List.cons_append, waitLoop]
    simp only [reduceCtorEq, if_false, ne_eq, not_true_eq_false]
    refine (ih _).trans ?_
    simp [List.replicate_succ]

theorem sigintAfter_append (a b : List Action) : ∀ d : Handler,
    sigintAfter d (a ++ b) = sigintAfter (sigintAfter d a) b := by
  induction a with
  | nil => intro d; rfl
  | cons x a ih =>
    intro d
    cases x <;> simp [sigintAfter, ih]

theorem sigintAfter_notSignal (a : List Action) (h : ∀ x ∈ a, notSignal x = true) :
    ∀ d : Handler, sigintAfter d a = d := by
  induction a with
  | nil => intro d; rfl
  | cons x a ih =>
    intro d
    have hx := h x (List.mem_cons_self _ _)
    have ha := ih (fun y hy => h y (List.mem_cons_of_mem _ hy))
    cases x <;> simp_all [sigintAfter, notSignal]

theorem traceToFork_notSignal (env : Env) (cmd : List Char) :
    ∀ x ∈ traceToFork env cmd, notSignal x = true := by
  unfold traceToFork
  cases echoCells env.verbose ((tokensOf cmd).map Slot.str ++ [Slot.uninit])
    (tokensOf cmd).length <;> simp [notSignal]

theorem execError_notSignal (command : Slot) (hint application : Option (List Char)) :
    ∀ x ∈ (execError command hint application).1, notSignal x = true := by
  unfold execError
  cases hint <;> simp [notSignal]

theorem sigintAfter_childSetup (interactive : Bool) (quiet : Int) (d : Handler) :
    sigintAfter d (childSetup interactive quiet) =
      if interactive then Handler.SIG_IGN else d := by
  unfold childSetup
  rw [sigintAfter_append]
  have h2 : ∀ d2 : Handler, sigintAfter d2
      (if quiet ≠ 0 then
        [Action.creat "/dev/null".toList, Action.close STDOUT_FILENO,
          Action.dup2null STDOUT_FILENO] ++
        (if quiet = 2 then [Action.close STDERR_FILENO, Action.dup2null STDERR_FILENO] else [])
      else []) = d2 := by
    intro d2
    apply sigintAfter_notSignal
    intro x hx
    split_ifs at hx <;> simp at hx <;> aesop
  rw [h2]
  cases interactive <;> simp [sigintAfter]

/-! ## The process claims -/

/-- C6, evaluated on the code: for the empty command the child (fork returned
0) does attempt an exec, `execvp(argv[0], argv)` with `argv[0]` the NULL
sentinel, and when that call returns it enters `execError` and does not return
from `System`. -/
theorem System_empty_command_execs (env : Env) (quiet : Int) (wait : Bool)
    (hint application : Option (List Char)) (ppid : Bool) (h0 : env.forkPid = 0) :
    Action.execvp Slot.null [Slot.null] ∈
        (System env (some []) quiet wait hint application ppid).1 ∧
    (env.execFails Slot.null = true →
      Action.cannotExecute Slot.null ∈
          (System env (some []) quiet wait hint application ppid).1 ∧
      ∀ v, (System env (some []) quiet wait hint application ppid).2 ≠ Outcome.returned v) := by
  rw [System_child env [] quiet wait hint application ppid h0]
  have ha : argvOf (tokensOf []) = [Slot.null] := by decide
  have hf : ([Slot.null] : List Slot).getD 0 Slot.uninit = Slot.null := rfl
  simp only [ha, hf]
  constructor
  · split_ifs <;> simp
  · intro hfail
    rw [if_pos hfail]
    cases hint <;> simp [execError]

/-- Witness of the evaluation of C6: the child's trace and outcome on the empty
command when `execvp` returns. -/
theorem System_empty_command_execs_witness :
    (0 : Int) = 0 ∧
    Action.execvp Slot.null [Slot.null] ∈
      (System ⟨0, false, true, 0, fun _ => true, []⟩ (some []) 0 true (some "gv".toList)
        none false).1 ∧
    System ⟨0, false, true, 0, fun _ => true, []⟩ (some []) 0 true (some "gv".toList)
        none false =
      ([Action.flush, Action.fork 0, Action.execvp Slot.null [Slot.null],
        Action.cannotExecute Slot.null, Action.execHint "gv".toList none, Action.exit (-1)],
        Outcome.exited (-1)) :=
  ⟨rfl,
    (System_empty_command_execs ⟨0, false, true, 0, fun _ => true, []⟩ 0 true
      (some "gv".toList) none false rfl).1,
    by decide⟩

/-- C7: in the parent of a successful fork, with `wait` true: after `k`
`waitpid` failures with `EINTR`, a normal exit with code `c` makes `System`
return `c`, and a failure with `ECHILD` makes it return `0`; in both cases no
error is reported. -/
theorem System_wait_retries (env : Env) (cmd : List Char) (quiet : Int)
    (hint application : Option (List Char)) (ppid : Bool) (k : Nat) (rest : List WaitRet)
    (hfork : 0 < env.forkPid) :
    (∀ c : Nat,
      env.waits = List.replicate k (WaitRet.failed Errno.EINTR) ++
          WaitRet.changed (WStatus.exited c) :: rest →
      (System env (some cmd) quiet true hint application ppid).2 = Outcome.returned c ∧
      ∀ msg, Action.reportError msg ∉
        (System env (some cmd) quiet true hint application ppid).1) ∧
    (env.waits = List.replicate k (WaitRet.failed Errno.EINTR) ++
          WaitRet.failed Errno.ECHILD :: rest →
      (System env (some cmd) quiet true hint application ppid).2 = Outcome.returned 0 ∧
      ∀ msg, Action.reportError msg ∉
        (System env (some cmd) quiet true hint application ppid).1) := by
  have h0 : env.forkPid ≠ 0 := by omega
  have h1 : env.forkPid ≠ -1 := by omega
  rw [System_parent env cmd quiet true hint application ppid h0 h1]
  unfold parentPart
  constructor
  · intro c hw
    rw [hw, waitLoop_EINTR_exited]
    refine ⟨rfl, fun msg hmem => ?_⟩
    have := traceToFork_noReport env cmd msg
    simp only [List.mem_append, List.mem_singleton, List.mem_replicate] at hmem
    cases ppid <;> simp_all
  · intro hw
    rw [hw, waitLoop_EINTR_ECHILD]
    refine ⟨rfl, fun msg hmem => ?_⟩
    have := traceToFork_noReport env cmd msg
    simp only [List.mem_append, List.mem_singleton, List.mem_replicate] at hmem
    cases ppid <;> simp_all

/-- Witness of C7: two interrupted waits, then the exit code 3; and one
interrupted wait, then `ECHILD`. -/
theorem System_wait_retries_witness :
    (0 : Int) < 1234 ∧
    (System ⟨0, false, true, 1234, fun _ => false,
        [WaitRet.failed Errno.EINTR, WaitRet.failed Errno.EINTR,
          WaitRet.changed (WStatus.exited 3)]⟩
      (some "ls -l".toList) 0 true none none true).2 = Outcome.returned 3 ∧
    (System ⟨0, false, true, 1234, fun _ => false,
        [WaitRet.failed Errno.EINTR, WaitRet.failed Errno.ECHILD]⟩
      (some "ls -l".toList) 0 true none none true).2 = Outcome.returned 0 :=
  ⟨by decide,
    ((System_wait_retries ⟨0, false, true, 1234, fun _ => false,
        [WaitRet.failed Errno.EINTR, WaitRet.failed Errno.EINTR,
          WaitRet.changed (WStatus.exited 3)]⟩
      "ls -l".toList 0 none none true 2 [] (by decide)).1 3 rfl).1,
    ((System_wait_retries ⟨0, false, true, 1234, fun _ => false,
        [WaitRet.failed Errno.EINTR, WaitRet.failed Errno.ECHILD]⟩
      "ls -l".toList 0 none none true 1 [] (by decide)).2 rfl).1⟩

/-- C9, as stated, fails: in an interactive session the child sets the
disposition of `SIGINT` to ignore, not to the default handler. -/
theorem System_child_ignores_SIGINT :
    sigintAfter (Handler.custom 1)
        (System ⟨0, true, true, 0, fun _ => false, []⟩ (some "ls".toList) 0 true none none
          false).1 = Handler.SIG_IGN ∧
    sigintAfter (Handler.custom 1)
        (System ⟨0, true, true, 0, fun _ => false, []⟩ (some "ls".toList) 0 true none none
          false).1 ≠ Handler.SIG_DFL ∧
    Action.signal SIGINT Handler.SIG_DFL ∉
        (System ⟨0, true, true, 0, fun _ => false, []⟩ (some "ls".toList) 0 true none none
          false).1 := by
  decide

/-- C9, amended: in the child (fork returned 0) the disposition of `SIGINT`
after the actions of `System` is ignore (`SIG_IGN`) when the session is
interactive, and the inherited disposition, unchanged, when it is not. -/
theorem System_child_SIGINT (env : Env) (cmd : List Char) (quiet : Int) (wait : Bool)
    (hint application : Option (List Char)) (ppid : Bool) (d : Handler)
    (h0 : env.forkPid = 0) :
    sigintAfter d (System env (some cmd) quiet wait hint application ppid).1 =
      if env.interactive then Handler.SIG_IGN else d := by
  rw [System_child env cmd quiet wait hint application ppid h0]
  have hpre : ∀ d2 : Handler, sigintAfter d2 (traceToFork env cmd) = d2 :=
    sigintAfter_notSignal _ (traceToFork_notSignal env cmd)
  have hexec : ∀ (d2 : Handler) (f : Slot) (a : List Slot),
      sigintAfter d2 [Action.execvp f a] = d2 := fun _ _ _ => rfl
  by_cases hx : env.execFails ((argvOf (tokensOf cmd)).getD 0 Slot.uninit) = true
  · rw [if_pos hx]
    show sigintAfter d (_ ++ _ ++ _ ++ _) = _
    rw [sigintAfter_append, sigintAfter_append, sigintAfter_append, hpre,
      sigintAfter_childSetup, hexec,
      sigintAfter_notSignal _ (execError_notSignal _ hint application)]
  · rw [if_neg hx]
    show sigintAfter d (_ ++ _ ++ _) = _
    rw [sigintAfter_append, sigintAfter_append, hpre, sigintAfter_childSetup, hexec]

/-- Witness of the amended C9, for an interactive and a non-interactive
session. -/
theorem System_child_SIGINT_witness :
    (0 : Int) = 0 ∧
    sigintAfter (Handler.custom 1)
        (System ⟨0, true, true, 0, fun _ => false, []⟩ (some "ls".toList) 1 true none none
          false).1 = Handler.SIG_IGN ∧
    sigintAfter (Handler.custom 1)
        (System ⟨0, false, true, 0, fun _ => false, []⟩ (some "ls".toList) 1 true none none
          false).1 = Handler.custom 1 :=
  ⟨rfl,
    System_child_SIGINT ⟨0, true, true, 0, fun _ => false, []⟩ "ls".toList 1 true none none
      false (Handler.custom 1) rfl,
    System_child_SIGINT ⟨0, false, true, 0, fun _ => false, []⟩ "ls".toList 1 true none none
      false (Handler.custom 1) rfl⟩

end Util
